import Mathlib

/-!
Verification of the unreal-pixijs ownership / lifecycle / render-order kernel.

The definitions below are a shallow embedding of the TypeScript source:
`src/managers/game.ts`, `src/objects/level.ts`, `src/objects/actors.ts`,
`src/widgets/widget.ts`, `src/scripts/healthScript.ts` and
`src/widgets/starter-widgets/input.ts`.  JavaScript numbers that can hold
`-Infinity` are embedded as `ENum`; plain numeric fields (`zOrder`,
coordinates) are embedded as `Int` or `Rat`; object identity is embedded
as natural-number ids.
-/

/-- A JavaScript number as used by `Game.adjustZIndexes`: either `-Infinity`
(the initial value of `highestZIndex`) or a finite integer. -/
inductive ENum where
  | negInf : ENum
  | fin : Int → ENum
deriving DecidableEq, Repr

/-- The JS comparison `zOrder > highestZIndex`; every finite number exceeds
`-Infinity`. -/
def ENum.intGt (z : Int) : ENum → Bool
  | .negInf => true
  | .fin a => z > a

/-- JS addition of a finite integer to a possibly minus-infinite number:
`-Infinity + n = -Infinity`. -/
def ENum.addInt : ENum → Int → ENum
  | .negInf, _ => .negInf
  | .fin a, n => .fin (a + n)

/-- JS strict `<` on such numbers. -/
def ENum.ltB : ENum → ENum → Bool
  | .negInf, .fin _ => true
  | .negInf, .negInf => false
  | .fin _, .negInf => false
  | .fin a, .fin b => a < b

/-- The render-order view of an `Actor` (`src/objects/actors.ts`): its
author-set relative priority `zOrder` and the derived absolute `zIndex`
(a pixi `Container` field, `0` on a fresh container). -/
structure ActorZ where
  zOrder : Int
  zIndex : ENum
deriving DecidableEq, Repr

/-- The render-order view of a top-level `Widget` (`src/widgets/widget.ts`). -/
structure WidgetZ where
  zOrder : Int
  zIndex : ENum
deriving DecidableEq, Repr

/-- The render-order view of a `Level`: its `actors` and `widgets` lists. -/
structure LevelZ where
  actors : List ActorZ
  widgets : List WidgetZ
deriving DecidableEq, Repr

/-- The render-order view of the `Game`: the persistant lists and the
optional active level. -/
structure GameZ where
  persistantActors : List ActorZ
  persistantWidgets : List WidgetZ
  level : Option LevelZ
deriving DecidableEq, Repr

/-- One actor loop of `Game.adjustZIndexes` (game.ts lines 126-142): sets
each actor's `zIndex` to its `zOrder` while threading the running
`highestZIndex`. -/
def scanActors (hz : ENum) : List ActorZ → ENum × List ActorZ
  | [] => (hz, [])
  | a :: rest =>
    let hz1 := if ENum.intGt a.zOrder hz then ENum.fin a.zOrder else hz
    let s := scanActors hz1 rest
    (s.1, { a with zIndex := ENum.fin a.zOrder } :: s.2)

/-- `Game.adjustZIndexes` (game.ts lines 123-155): scan persistant actors,
then the active level's actors, tracking `highestZIndex` (initially
`-Infinity`); add `1`; then assign every top-level widget
`zIndex = highestZIndex + zOrder`. -/
def adjustZIndexes (g : GameZ) : GameZ :=
  let s1 := scanActors ENum.negInf g.persistantActors
  match g.level with
  | none =>
    let base := s1.1.addInt 1
    { persistantActors := s1.2,
      persistantWidgets :=
        g.persistantWidgets.map (fun w => { w with zIndex := base.addInt w.zOrder }),
      level := none }
  | some l =>
    let s2 := scanActors s1.1 l.actors
    let base := s2.1.addInt 1
    { persistantActors := s1.2,
      persistantWidgets :=
        g.persistantWidgets.map (fun w => { w with zIndex := base.addInt w.zOrder }),
      level := some
        { actors := s2.2,
          widgets := l.widgets.map (fun w => { w with zIndex := base.addInt w.zOrder }) } }

/-- The union scanned by `adjustZIndexes`: persistant actors followed by the
active level's actors. -/
def allActors (g : GameZ) : List ActorZ :=
  g.persistantActors ++ (match g.level with | none => [] | some l => l.actors)

/-- The union of persistant widgets and the active level's widgets, in the
order `adjustZIndexes` visits them. -/
def allWidgets (g : GameZ) : List WidgetZ :=
  g.persistantWidgets ++ (match g.level with | none => [] | some l => l.widgets)

/-- The running maximum the actor loops of `adjustZIndexes` compute. -/
def foldMax (hz : ENum) (as : List ActorZ) : ENum :=
  as.foldl (fun h a => if ENum.intGt a.zOrder h then ENum.fin a.zOrder else h) hz

/-- The value `highestZIndex` holds after both actor loops, before `+= 1`. -/
def maxZOrder (as : List ActorZ) : ENum := foldMax ENum.negInf as

/-- `Level.addActor` (level.ts lines 219-223) restricted to its render-order
effect: the actor is pushed onto the level's list and `Actor.onCreate` runs,
which only touches the stage and the ownership back-references.  No call to
`Game.adjustZIndexes` occurs anywhere in `Level.addActor` or in
`Actor.onCreate`. -/
def levelAddActorZ (g : GameZ) (a : ActorZ) : GameZ :=
  match g.level with
  | none => g
  | some l => { g with level := some { l with actors := l.actors ++ [a] } }

/-- Counterexample state for the widgets-above-actors clause: one persistant
actor with zOrder 0, one persistant widget with zOrder -1. -/
def gsWidgetBelow : GameZ :=
  { persistantActors := [{ zOrder := 0, zIndex := ENum.fin 0 }],
    persistantWidgets := [{ zOrder := -1, zIndex := ENum.fin 0 }],
    level := none }

/-- The concrete configuration of the claim: actors A (zOrder 0) and
B (zOrder 2) and a top-level widget W (zOrder 0), in the active level. -/
def gsABW : GameZ :=
  { persistantActors := [],
    persistantWidgets := [],
    level := some
      { actors := [{ zOrder := 0, zIndex := ENum.fin 0 }, { zOrder := 2, zIndex := ENum.fin 0 }],
        widgets := [{ zOrder := 0, zIndex := ENum.fin 0 }] } }

/-- A game state as produced by a previous `adjustZIndexes`: the active level
holds one actor (zOrder 0, zIndex 0) and one widget (zOrder 0, zIndex 1). -/
def gsLevelBase : GameZ :=
  { persistantActors := [],
    persistantWidgets := [],
    level := some
      { actors := [{ zOrder := 0, zIndex := ENum.fin 0 }],
        widgets := [{ zOrder := 0, zIndex := ENum.fin 1 }] } }

/-- A freshly constructed actor with zOrder 2: its pixi container zIndex
still holds the default 0. -/
def actorB2 : ActorZ := { zOrder := 2, zIndex := ENum.fin 0 }

/-- State with no actors at all and a single top-level widget of zOrder 0. -/
def gsNoActors : GameZ :=
  { persistantActors := [],
    persistantWidgets := [{ zOrder := 0, zIndex := ENum.fin 0 }],
    level := none }

/-- The widget value produced by `adjustZIndexes` on `gsNoActors`. -/
def wNoActorsPost : WidgetZ := { zOrder := 0, zIndex := ENum.negInf }

/-! ## Ownership registry: actors, levels and back-references -/

abbrev ActorId := Nat
abbrev LevelId := Nat

/-- The ownership fields stored on an `Actor` (actors.ts): the
`persistantActor` flag (default `true`) and the `level` back-reference
(default `undefined`). -/
structure ActorRefs where
  persistantActor : Bool
  level : Option LevelId
deriving DecidableEq, Repr

/-- Observable lifecycle events: creation hooks, removal hooks, widget
deconstruction hooks, the `this.level = level` assignment in
`Game.loadLevel`, and level-specific side effects performed by a subclass
`onUnload`. -/
inductive Ev where
  | createHook (a : ActorId)
  | removeHook (a : ActorId)
  | deconHook (w : Nat)
  | effect (e : Nat)
  | levelSet (l : LevelId)
deriving DecidableEq, Repr

/-- The ownership view of a `Level`: its id and its actor list. -/
structure LevelA where
  lid : LevelId
  actors : List ActorId
deriving DecidableEq, Repr

/-- The ownership view of the `Game`: the persistant actor list, every live
level object, the ownership fields of every actor, and the event trace. -/
structure GameA where
  persistantActors : List ActorId
  levels : List LevelA
  refs : ActorId → ActorRefs
  trace : List Ev

/-- `Actor.onCreate` (actors.ts 72-80) restricted to the ownership fields:
`this.level` is assigned only when the actor is not persistant, and
`this.persistantActor` is always assigned. -/
def onCreateRefs (isPersistant : Bool) (levelReference : Option LevelId)
    (r : ActorRefs) : ActorRefs :=
  { persistantActor := isPersistant,
    level := if isPersistant then r.level else levelReference }

/-- Pointwise update of the per-actor ownership fields. -/
def setRefs (f : ActorId → ActorRefs) (a : ActorId) (r : ActorRefs) :
    ActorId → ActorRefs :=
  fun x => if x = a then r else f x

/-- `Level.addActor` (level.ts 219-223): push the actor, then run
`actor.onCreate(false, this)`. -/
def levelAddActor (g : GameA) (lid : LevelId) (a : ActorId) : GameA :=
  { g with
    levels := g.levels.map
      (fun l => if l.lid = lid then { l with actors := l.actors ++ [a] } else l),
    refs := setRefs g.refs a (onCreateRefs false (some lid) (g.refs a)),
    trace := g.trace ++ [Ev.createHook a] }

/-- `Game.addPersistantActor` (game.ts 357-362): push the actor, then run
`actor.onCreate(true, undefined)`.  The `adjustZIndexes` call touches only
the render-order fields modelled by `GameZ`. -/
def addPersistantActor (g : GameA) (a : ActorId) : GameA :=
  { g with
    persistantActors := g.persistantActors ++ [a],
    refs := setRefs g.refs a (onCreateRefs true none (g.refs a)),
    trace := g.trace ++ [Ev.createHook a] }

/-- `Level.removeActor` (level.ts 237-245), invoked on the level whose id is
`lid`: if the actor is not in `this.actors`, return `false` without touching
anything; otherwise run `actor.onRemove()`, filter the actor out of
`this.actors`, and return `true`. -/
def levelRemoveActor (g : GameA) (lid : LevelId) (a : ActorId) : Bool × GameA :=
  match g.levels.find? (fun l => l.lid == lid) with
  | none => (false, g)
  | some l =>
    if l.actors.contains a then
      (true, { g with
        levels := g.levels.map
          (fun l2 => if l2.lid = lid then
            { l2 with actors := l2.actors.filter (fun x => x != a) } else l2),
        trace := g.trace ++ [Ev.removeHook a] })
    else (false, g)

/-- `Game.removePersistantActor` (game.ts 376-385): if the actor is not in
`this.persistantActors`, return `false` without touching anything; otherwise
run `actor.onRemove()`, filter the actor out, and return `true`.  The
`adjustZIndexes` call touches only the render-order fields modelled by
`GameZ`. -/
def removePersistantActor (g : GameA) (a : ActorId) : Bool × GameA :=
  if g.persistantActors.contains a then
    (true, { g with
      persistantActors := g.persistantActors.filter (fun x => x != a),
      trace := g.trace ++ [Ev.removeHook a] })
  else (false, g)

/-- `Actor.remove` (actors.ts 98-104): dispatch on
`this.level == undefined || this.persistantActor`. -/
def actorRemove (g : GameA) (a : ActorId) : GameA :=
  match (g.refs a).level, (g.refs a).persistantActor with
  | none, _ => (removePersistantActor g a).2
  | some _, true => (removePersistantActor g a).2
  | some lid, false => (levelRemoveActor g lid a).2

/-- How many times `a` occurs in the persistant actor list. -/
def persistCount (g : GameA) (a : ActorId) : Nat := g.persistantActors.count a

/-- How many times `a` occurs across all level actor lists. -/
def levelCount (g : GameA) (a : ActorId) : Nat :=
  ((g.levels.map (fun l => l.actors)).flatten).count a

/-- Every actor currently registered somewhere. -/
def allMembers (g : GameA) : List ActorId :=
  g.persistantActors ++ (g.levels.map (fun l => l.actors)).flatten

/-- The membership / back-reference correspondence for one actor: it is
either registered exactly once as a persistant actor with
`persistantActor = true` and `level = undefined`, or registered exactly once
in one level's list with `persistantActor = false` and `level` pointing at
that level. -/
def goodActor (g : GameA) (a : ActorId) : Prop :=
  (persistCount g a = 1 ∧ levelCount g a = 0 ∧
    g.refs a = { persistantActor := true, level := none }) ∨
  (persistCount g a = 0 ∧ levelCount g a = 1 ∧
    (g.refs a).persistantActor = false ∧
    ∃ l ∈ g.levels, (g.refs a).level = some l.lid ∧ a ∈ l.actors)

/-- The registry invariant: level ids are distinct and every registered
actor satisfies the membership / back-reference correspondence. -/
def registryInv (g : GameA) : Prop :=
  (g.levels.map (fun l => l.lid)).Nodup ∧ ∀ a ∈ allMembers g, goodActor g a

instance (g : GameA) (a : ActorId) : Decidable (goodActor g a) := by
  unfold goodActor; infer_instance

instance (g : GameA) : Decidable (registryInv g) := by
  unfold registryInv; infer_instance

/-! ## Level loading and unloading -/

/-- The load/unload view of a `Level`: its id, current actors and widgets,
the side effects its subclass `onUnload` performs after `super.onUnload()`
(resources.ts pattern, e.g. a background colour change), and the actors its
subclass `onLoad` creates via `this.addActor(new ...)`. -/
structure LevelL where
  lid : LevelId
  actors : List ActorId
  widgets : List Nat
  unloadEffects : List Nat
  initActors : List ActorId
deriving DecidableEq, Repr

/-- The events emitted by `level.onUnload()` (level.ts 201-209 plus the
subclass convention of calling `super.onUnload()` first): every actor's
removal hook in list order, then every widget's deconstruction, then the
subclass side effects. -/
def onUnloadTrace (l : LevelL) : List Ev :=
  l.actors.map Ev.removeHook ++ l.widgets.map Ev.deconHook ++
    l.unloadEffects.map Ev.effect

/-- The events emitted by `level.onLoad()`: the base hook is empty and a
subclass adds the level's initial actors via `Level.addActor`, firing each
new actor's creation hook (resources.ts pattern). -/
def onLoadTrace (l : LevelL) : List Ev :=
  l.initActors.map Ev.createHook

/-- The load/unload view of the `Game`. -/
structure GameL where
  level : Option LevelL
  trace : List Ev
deriving DecidableEq, Repr

/-- The event segment emitted by one `Game.loadLevel` call (game.ts
302-313): unload the previous level if any, assign `this.level`, then run
the new level's `onLoad`. -/
def loadLevelEmitted (g : GameL) (newLevel : LevelL) : List Ev :=
  (match g.level with | none => [] | some old => onUnloadTrace old) ++
    [Ev.levelSet newLevel.lid] ++ onLoadTrace newLevel

/-- `Game.loadLevel` (game.ts 302-313). -/
def loadLevel (g : GameL) (newLevel : LevelL) : GameL :=
  { level := some { newLevel with actors := newLevel.actors ++ newLevel.initActors },
    trace := g.trace ++ loadLevelEmitted g newLevel }

/-- Teardown events of the unloaded level: removal hooks, widget
deconstructions and subclass side effects. -/
def Ev.isTeardown : Ev → Bool
  | .removeHook _ => true
  | .deconHook _ => true
  | .effect _ => true
  | _ => false

/-- Events that belong to installing the new level. -/
def Ev.isSetup : Ev → Bool
  | .levelSet _ => true
  | .createHook _ => true
  | _ => false

/-! ## Widget trees and cascading deconstruction -/

/-- A widget with its subWidgets, identified by ids. -/
inductive WTree where
  | node (wid : Nat) (sub : List WTree)

/-- The id at the root of a widget tree. -/
def WTree.wid : WTree → Nat
  | .node i _ => i

mutual
/-- `Widget.deconstructWidget` (widget.ts 95-102) as the sequence of
`onDeconstruct` hook firings it produces: recursively deconstruct every
sub-widget in list order, then fire the widget's own `onDeconstruct`
(widget.ts 73-85), which unlinks it from the collection that owned it. -/
def deconstructTrace : WTree → List Nat
  | .node i cs => deconstructTraceList cs ++ [i]

/-- The hook firings produced by deconstructing a list of sub-widgets. -/
def deconstructTraceList : List WTree → List Nat
  | [] => []
  | c :: cs => deconstructTrace c ++ deconstructTraceList cs
end

mutual
/-- Every widget id in a tree: the root followed by all descendants. -/
def widgetIds : WTree → List Nat
  | .node i cs => i :: widgetIdsList cs

/-- Every widget id in a forest. -/
def widgetIdsList : List WTree → List Nat
  | [] => []
  | c :: cs => widgetIds c ++ widgetIdsList cs
end

mutual
/-- Every subtree of a tree, the tree itself included. -/
def subtrees : WTree → List WTree
  | .node i cs => .node i cs :: subtreesList cs

/-- Every subtree of a forest. -/
def subtreesList : List WTree → List WTree
  | [] => []
  | c :: cs => subtrees c ++ subtreesList cs
end

/-! ## Scripts and `Actor.getScript` -/

/-- A `Script` as seen by `Actor.getScript`: its runtime class chain (the
JS `instanceof T` test holds exactly when `T` occurs in the chain, so a
subtype instance lists the supertype too) and the `isEnabled` flag. -/
structure ScriptM where
  classes : List Nat
  isEnabled : Bool
deriving DecidableEq, Repr

/-- The JS test `script instanceof targetScript`. -/
def instanceOfScript (s : ScriptM) (T : Nat) : Bool := s.classes.contains T

/-- `Actor.getScript` (actors.ts 114-122): scan `this.scripts` in order and
return the first script passing the source's condition. -/
def getScript (scripts : List ScriptM) (T : Nat) (ignoreDisabled : Bool) :
    Option ScriptM :=
  match scripts with
  | [] => none
  | s :: rest =>
    if instanceOfScript s T && (s.isEnabled || !ignoreDisabled) then some s
    else getScript rest T ignoreDisabled

/-- The matching predicate as the claim words it: an instance of the target
class, and enabled whenever `ignoreDisabled` is true. -/
def claimMatch (T : Nat) (ig : Bool) (s : ScriptM) : Prop :=
  instanceOfScript s T = true ∧ (ig = true → s.isEnabled = true)

instance (T : Nat) (ig : Bool) (s : ScriptM) : Decidable (claimMatch T ig s) := by
  unfold claimMatch; infer_instance

/-! ## HealthScript -/

/-- The numeric state of a `HealthScript` (healthScript.ts), with JS floats
embedded as exact rationals. -/
structure HealthSt where
  maxHealth : Rat
  health : Rat
  rollingHealthSpeed : Rat
  heldDamage : Rat
deriving DecidableEq, Repr

/-- `HealthScript.update` (healthScript.ts 47-60) with `deltaTime` given in
whole seconds, where `Math.pow(b, deltaTime)` is the iterated product
`b ^ deltaTime` (the claim's calls pass `1.0` and `2.0`).  The `onDeath`
callback only fires at `health ≤ 0` and removes the owning actor; it never
touches these fields and is not reached in the runs considered here. -/
def healthUpdate (s : HealthSt) (deltaTime : Nat) : HealthSt :=
  let rate := min 1 (max 0 s.rollingHealthSpeed)
  let fraction := 1 - (1 - rate) ^ deltaTime
  let adjustAmount := s.heldDamage * fraction
  { s with
    health := max 0 (min s.maxHealth (s.health - adjustAmount)),
    heldDamage := s.heldDamage - adjustAmount }

/-- `HealthScript.takeDamage` (healthScript.ts 66-68). -/
def takeDamage (s : HealthSt) (amount : Rat) : HealthSt :=
  { s with heldDamage := s.heldDamage + amount }

/-- The claim's starting state: maxHealth 100, health 100,
rollingHealthSpeed 0.8, heldDamage 0. -/
def healthInit : HealthSt :=
  { maxHealth := 100, health := 100, rollingHealthSpeed := 4/5, heldDamage := 0 }

/-! ## WidgetInput focus -/

/-- The mouse snapshot read by `WidgetInput.update`: `game.mouseDown[0]` and
`game.mousePos`. -/
structure MouseSt where
  leftDown : Bool
  mouseX : Int
  mouseY : Int
deriving DecidableEq, Repr

/-- `Game.pointToRectCollision` (game.ts 518-520). -/
def pointToRect (px py rx ry sx sy : Int) : Bool :=
  (px - rx ≥ 0) && (py - ry ≥ 0) && (px - rx ≤ sx) && (py - ry ≤ sy)

/-- The focus-relevant state of a `WidgetInput` (input.ts). -/
structure InputSt where
  x : Int
  y : Int
  xSize : Int
  ySize : Int
  isFocused : Bool
deriving DecidableEq, Repr

/-- `WidgetInput.update` (input.ts 218-276) restricted to its focus state
machine: the new state together with the number of `onFocusedFunction`
calls made during the tick.  Lines 223-239 handle the focus transition
(firing the callback when an in-rectangle primary press finds the widget
unfocused), lines 241-271 update colour, text and caret without touching
`isFocused` or the callback, and lines 273-275 fire the callback again
whenever the widget ends the tick focused. -/
def widgetInputUpdate (w : InputSt) (m : MouseSt) : InputSt × Nat :=
  let s1 :=
    if m.leftDown then
      if pointToRect m.mouseX m.mouseY w.x w.y w.xSize w.ySize then
        ({ w with isFocused := true }, if w.isFocused then 0 else 1)
      else ({ w with isFocused := false }, 0)
    else (w, 0)
  (s1.1, s1.2 + (if s1.1.isFocused then 1 else 0))

/-- An unfocused input widget occupying the rectangle (0,0)-(100,50). -/
def wUnfocused : InputSt :=
  { x := 0, y := 0, xSize := 100, ySize := 50, isFocused := false }

/-- A primary press at (10,10), inside that rectangle. -/
def mClick : MouseSt := { leftDown := true, mouseX := 10, mouseY := 10 }

/-- The post-state widget value for the claim's concrete A/B/W example. -/
def wABW : WidgetZ := { zOrder := 0, zIndex := ENum.fin 3 }

/-- A loaded level about to be replaced: two actors, one widget, one
subclass unload side effect. -/
def oldLevelW : LevelL :=
  { lid := 1, actors := [1, 2], widgets := [5], unloadEffects := [9],
    initActors := [] }

/-- The replacement level, whose `onLoad` creates actor 3. -/
def newLevelW : LevelL :=
  { lid := 2, actors := [], widgets := [], unloadEffects := [],
    initActors := [3] }

/-- A game with `oldLevelW` loaded. -/
def gLoadW : GameL := { level := some oldLevelW, trace := [] }

/-- A registry with one empty level (id 1), no persistant actors, and every
actor still holding the constructor defaults. -/
def gRegW : GameA :=
  { persistantActors := [], levels := [{ lid := 1, actors := [] }],
    refs := fun _ => { persistantActor := true, level := none }, trace := [] }

/-- A registry holding actor 4 in level 1 and actor 7 as a persistant
actor, with matching back-references. -/
def gRegW2 : GameA :=
  { persistantActors := [7],
    levels := [{ lid := 1, actors := [4] }],
    refs := fun a =>
      if a = 4 then { persistantActor := false, level := some 1 }
      else { persistantActor := true, level := none },
    trace := [] }

/-! # Theorems -/

theorem scanActors_eq : ∀ (as : List ActorZ) (hz : ENum),
    scanActors hz as =
      (foldMax hz as, as.map (fun a => { a with zIndex := ENum.fin a.zOrder }))
  | [], _ => rfl
  | a :: rest, hz => by
    simp only [scanActors, scanActors_eq rest, foldMax, List.foldl_cons, List.map_cons]

theorem allActors_adjust (g : GameZ) :
    allActors (adjustZIndexes g) =
      (allActors g).map (fun a => { a with zIndex := ENum.fin a.zOrder }) := by
  cases hl : g.level with
  | none => simp [adjustZIndexes, allActors, hl, scanActors_eq]
  | some l => simp [adjustZIndexes, allActors, hl, scanActors_eq, List.map_append]

theorem allWidgets_adjust (g : GameZ) :
    allWidgets (adjustZIndexes g) =
      (allWidgets g).map
        (fun w => { w with
          zIndex := ((maxZOrder (allActors g)).addInt 1).addInt w.zOrder }) := by
  cases hl : g.level with
  | none => simp [adjustZIndexes, allWidgets, allActors, maxZOrder, hl, scanActors_eq]
  | some l =>
    simp [adjustZIndexes, allWidgets, allActors, maxZOrder, hl, scanActors_eq,
      List.map_append, foldMax, List.foldl_append]

theorem foldMax_fin_mono : ∀ (as : List ActorZ) (c M : Int),
    foldMax (ENum.fin c) as = ENum.fin M → c ≤ M
  | [], c, M, h => by
    simp only [foldMax, List.foldl_nil, ENum.fin.injEq] at h
    omega
  | a :: rest, c, M, h => by
    simp only [foldMax, List.foldl_cons] at h
    by_cases hgt : ENum.intGt a.zOrder (ENum.fin c) = true
    · rw [if_pos hgt] at h
      have h2 := foldMax_fin_mono rest a.zOrder M h
      have h3 : c < a.zOrder := by
        simpa [ENum.intGt, decide_eq_true_eq] using hgt
      omega
    · rw [if_neg hgt] at h
      exact foldMax_fin_mono rest c M h

theorem foldMax_le : ∀ (as : List ActorZ) (hz : ENum) (M : Int),
    foldMax hz as = ENum.fin M → ∀ a ∈ as, a.zOrder ≤ M
  | [], _, _, _, a, ha => absurd ha (List.not_mem_nil a)
  | b :: rest, hz, M, h, a, ha => by
    simp only [foldMax, List.foldl_cons] at h
    rcases List.mem_cons.mp ha with rfl | hrest
    · by_cases hgt : ENum.intGt a.zOrder hz = true
      · rw [if_pos hgt] at h
        exact foldMax_fin_mono rest a.zOrder M h
      · rw [if_neg hgt] at h
        cases hz with
        | negInf => simp [ENum.intGt] at hgt
        | fin c =>
          have h2 : a.zOrder ≤ c := by
            simpa [ENum.intGt, decide_eq_true_eq, not_lt] using hgt
          have h3 := foldMax_fin_mono rest c M h
          omega
    · by_cases hgt : ENum.intGt b.zOrder hz = true
      · rw [if_pos hgt] at h
        exact foldMax_le rest _ M h a hrest
      · rw [if_neg hgt] at h
        exact foldMax_le rest _ M h a hrest

theorem foldMax_attained : ∀ (as : List ActorZ) (hz : ENum) (M : Int),
    foldMax hz as = ENum.fin M → hz = ENum.fin M ∨ ∃ a ∈ as, a.zOrder = M
  | [], hz, M, h => by
    simp only [foldMax, List.foldl_nil] at h
    exact Or.inl h
  | b :: rest, hz, M, h => by
    simp only [foldMax, List.foldl_cons] at h
    by_cases hgt : ENum.intGt b.zOrder hz = true
    · rw [if_pos hgt] at h
      rcases foldMax_attained rest _ M h with heq | ⟨a, ha, hA⟩
      · exact Or.inr ⟨b, List.mem_cons_self b rest, by
          simpa [ENum.fin.injEq] using heq⟩
      · exact Or.inr ⟨a, List.mem_cons_of_mem b ha, hA⟩
    · rw [if_neg hgt] at h
      rcases foldMax_attained rest _ M h with heq | ⟨a, ha, hA⟩
      · exact Or.inl heq
      · exact Or.inr ⟨a, List.mem_cons_of_mem b ha, hA⟩

/-- C1 counterexample: with one actor of zOrder 0 and one top-level widget
of zOrder -1, `adjustZIndexes` gives both a zIndex of 0, so the widget's
zIndex does not strictly exceed the actor's although an actor exists. -/
theorem widget_zindex_not_above_actor_cex :
    (adjustZIndexes gsWidgetBelow).persistantActors =
      [{ zOrder := 0, zIndex := ENum.fin 0 }] ∧
    (adjustZIndexes gsWidgetBelow).persistantWidgets =
      [{ zOrder := -1, zIndex := ENum.fin 0 }] ∧
    ENum.ltB (ENum.fin 0) (ENum.fin 0) = false := by decide

/-- C1 (amended): after `Game.adjustZIndexes`, every actor's zIndex equals
its zOrder and every top-level widget's zIndex equals the maximum actor
zOrder plus 1 plus the widget's zOrder; provided at least one actor exists
and every such widget's zOrder is nonnegative, every widget's zIndex
strictly exceeds every actor's zIndex. -/
theorem adjustZIndexes_order_spec (g : GameZ) (M : Int)
    (hmax : maxZOrder (allActors g) = ENum.fin M)
    (hw : ∀ w ∈ allWidgets g, 0 ≤ w.zOrder) :
    (∀ a ∈ allActors (adjustZIndexes g), a.zIndex = ENum.fin a.zOrder) ∧
    (∀ w ∈ allWidgets (adjustZIndexes g), w.zIndex = ENum.fin (M + 1 + w.zOrder)) ∧
    (∀ a ∈ allActors g, a.zOrder ≤ M) ∧
    (∃ a ∈ allActors g, a.zOrder = M) ∧
    (∀ a ∈ allActors (adjustZIndexes g), ∀ w ∈ allWidgets (adjustZIndexes g),
      ENum.ltB a.zIndex w.zIndex = true) := by
  have hA := allActors_adjust g
  have hW := allWidgets_adjust g
  have hle : ∀ a ∈ allActors g, a.zOrder ≤ M := foldMax_le _ _ M hmax
  have hat : ∃ a ∈ allActors g, a.zOrder = M := by
    rcases foldMax_attained _ _ M hmax with heq | hex
    · exact absurd heq (by simp)
    · exact hex
  have hact : ∀ a ∈ allActors (adjustZIndexes g), a.zIndex = ENum.fin a.zOrder := by
    rw [hA]
    intro a ha
    obtain ⟨a₀, _, rfl⟩ := List.mem_map.mp ha
    rfl
  have hwid : ∀ w ∈ allWidgets (adjustZIndexes g),
      w.zIndex = ENum.fin (M + 1 + w.zOrder) := by
    rw [hW, hmax]
    intro w hw2
    obtain ⟨w₀, _, rfl⟩ := List.mem_map.mp hw2
    simp [ENum.addInt]
  refine ⟨hact, hwid, hle, hat, ?_⟩
  intro a ha w hw2
  rw [hact a ha, hwid w hw2]
  have haz : a.zOrder ≤ M := by
    rw [hA] at ha
    obtain ⟨a₀, ha₀, rfl⟩ := List.mem_map.mp ha
    exact hle a₀ ha₀
  have hwz : 0 ≤ w.zOrder := by
    rw [hW] at hw2
    obtain ⟨w₀, hw₀, rfl⟩ := List.mem_map.mp hw2
    exact hw w₀ hw₀
  simp only [ENum.ltB, decide_eq_true_eq]
  omega

/-- C1 witness: the claim's concrete example, actors A (zOrder 0) and
B (zOrder 2) and widget W (zOrder 0); W ends with zIndex 3. -/
theorem adjustZIndexes_order_spec_witness :
    maxZOrder (allActors gsABW) = ENum.fin 2 ∧
    wABW ∈ allWidgets (adjustZIndexes gsABW) ∧
    wABW.zIndex = ENum.fin (2 + 1 + wABW.zOrder) :=
  ⟨by decide, by decide,
    (adjustZIndexes_order_spec gsABW 2 (by decide) (by decide)).2.1 wABW (by decide)⟩

/-- C2: `Level.addActor` returns without re-deriving the render order.
Starting from a consistent state (level actor zOrder 0 / zIndex 0, widget
zOrder 0 / zIndex 1), adding an actor of zOrder 2 leaves the new actor's
zIndex at the container default 0 and the widget's zIndex at 1, whereas the
assignment `adjustZIndexes` would produce is actor zIndexes [0, 2] and
widget zIndex 3 (the values the repository's own test asserts right after
`level.addActor`). -/
theorem levelAddActor_no_reorder :
    (allActors (levelAddActorZ gsLevelBase actorB2)).map (fun a => a.zIndex) =
      [ENum.fin 0, ENum.fin 0] ∧
    (allWidgets (levelAddActorZ gsLevelBase actorB2)).map (fun w => w.zIndex) =
      [ENum.fin 1] ∧
    (allActors (adjustZIndexes (levelAddActorZ gsLevelBase actorB2))).map
      (fun a => a.zIndex) = [ENum.fin 0, ENum.fin 2] ∧
    (allWidgets (adjustZIndexes (levelAddActorZ gsLevelBase actorB2))).map
      (fun w => w.zIndex) = [ENum.fin 3] := by decide

/-- C4: when no actor exists, `adjustZIndexes` leaves `highestZIndex` at
`-Infinity`, so every top-level widget's zIndex becomes `-Infinity + zOrder
= -Infinity` rather than a finite value. -/
theorem adjustZIndexes_empty_actors_negInf (g : GameZ) (h : allActors g = []) :
    ∀ w ∈ allWidgets (adjustZIndexes g), w.zIndex = ENum.negInf := by
  have hW := allWidgets_adjust g
  have hm : maxZOrder (allActors g) = ENum.negInf := by rw [h]; rfl
  rw [hW, hm]
  intro w hw
  obtain ⟨w₀, _, rfl⟩ := List.mem_map.mp hw
  rfl

/-- C4 witness: with no actors and one widget of zOrder 0, the widget's
zIndex after `adjustZIndexes` is `-Infinity`. -/
theorem adjustZIndexes_empty_actors_negInf_witness :
    allActors gsNoActors = [] ∧ wNoActorsPost.zIndex = ENum.negInf :=
  ⟨rfl, adjustZIndexes_empty_actors_negInf gsNoActors rfl wNoActorsPost (by decide)⟩

theorem getScript_cond_iff (s : ScriptM) (T : Nat) (ig : Bool) :
    (instanceOfScript s T && (s.isEnabled || !ig)) = true ↔ claimMatch T ig s := by
  cases ig <;> cases h : s.isEnabled <;>
    simp [claimMatch, h, Bool.and_eq_true, Bool.or_eq_true]

/-- C8: `Actor.getScript` returns the first script in insertion order that
is an instance of the target class (subtype-inclusive); with
`ignoreDisabled = true` disabled scripts are skipped so the first enabled
match is returned, with `ignoreDisabled = false` the first match is
returned regardless of its flag, and `undefined` is returned when no
matching script exists. -/
theorem getScript_first_match (l : List ScriptM) (T : Nat) (ig : Bool) :
    (∀ s, getScript l T ig = some s ↔
      ∃ l₁ l₂, l = l₁ ++ s :: l₂ ∧ claimMatch T ig s ∧
        ∀ x ∈ l₁, ¬ claimMatch T ig x) ∧
    (getScript l T ig = none ↔ ∀ x ∈ l, ¬ claimMatch T ig x) := by
  induction l with
  | nil =>
    constructor
    · intro s
      constructor
      · intro h
        exact absurd h (by simp [getScript])
      · rintro ⟨l₁, l₂, heq, -, -⟩
        exact absurd heq (by simp)
    · simp [getScript]
  | cons b rest ih =>
    by_cases hb : claimMatch T ig b
    · have hcond : (instanceOfScript b T && (b.isEnabled || !ig)) = true :=
        (getScript_cond_iff b T ig).mpr hb
      constructor
      · intro s
        constructor
        · intro h
          rw [getScript, if_pos hcond] at h
          obtain rfl : b = s := Option.some.inj h
          exact ⟨[], rest, rfl, hb, by simp⟩
        · rintro ⟨l₁, l₂, heq, hm, hnone⟩
          cases l₁ with
          | nil =>
            simp only [List.nil_append, List.cons.injEq] at heq
            rw [getScript, if_pos hcond, heq.1]
          | cons c l₁t =>
            simp only [List.cons_append, List.cons.injEq] at heq
            exact absurd (heq.1 ▸ hb) (hnone c (List.mem_cons_self c l₁t))
      · constructor
        · intro h
          rw [getScript, if_pos hcond] at h
          exact absurd h (by simp)
        · intro h
          exact absurd hb (h b (List.mem_cons_self b rest))
    · have hcond : ¬ ((instanceOfScript b T && (b.isEnabled || !ig)) = true) :=
        fun hc => hb ((getScript_cond_iff b T ig).mp hc)
      constructor
      · intro s
        rw [getScript, if_neg hcond, ih.1 s]
        constructor
        · rintro ⟨l₁, l₂, heq, hm, hnone⟩
          refine ⟨b :: l₁, l₂, by rw [List.cons_append, heq], hm, ?_⟩
          intro x hx
          rcases List.mem_cons.mp hx with rfl | hx2
          · exact hb
          · exact hnone x hx2
        · rintro ⟨l₁, l₂, heq, hm, hnone⟩
          cases l₁ with
          | nil =>
            simp only [List.nil_append, List.cons.injEq] at heq
            exact absurd (heq.1 ▸ hm) hb
          | cons c l₁t =>
            simp only [List.cons_append, List.cons.injEq] at heq
            exact ⟨l₁t, l₂, heq.2, hm, fun x hx =>
              hnone x (List.mem_cons_of_mem c hx)⟩
      · rw [getScript, if_neg hcond, ih.2]
        constructor
        · intro h x hx
          rcases List.mem_cons.mp hx with rfl | hx2
          · exact hb
          · exact h x hx2
        · intro h x hx
          exact h x (List.mem_cons_of_mem b hx)

/-- C9: the health-script rolling-damage run of the claim, in exact
arithmetic: takeDamage 50 gives heldDamage 50; update over 1 second gives
heldDamage 10 and health 60; a further update over 2 seconds gives
heldDamage 0.4 and health 50.4. -/
theorem health_rolling_damage_run :
    (takeDamage healthInit 50).heldDamage = 50 ∧
    (healthUpdate (takeDamage healthInit 50) 1).heldDamage = 10 ∧
    (healthUpdate (takeDamage healthInit 50) 1).health = 60 ∧
    (healthUpdate (healthUpdate (takeDamage healthInit 50) 1) 2).heldDamage = 2/5 ∧
    (healthUpdate (healthUpdate (takeDamage healthInit 50) 1) 2).health = 252/5 := by
  norm_num [healthUpdate, takeDamage, healthInit]

mutual
theorem deconstructTrace_perm : ∀ (t : WTree),
    (deconstructTrace t).Perm (widgetIds t)
  | .node i cs => by
    simp only [deconstructTrace, widgetIds]
    exact ((deconstructTraceList_perm cs).append_right [i]).trans
      List.perm_append_comm

theorem deconstructTraceList_perm : ∀ (cs : List WTree),
    (deconstructTraceList cs).Perm (widgetIdsList cs)
  | [] => List.Perm.refl _
  | c :: cs => by
    simp only [deconstructTraceList, widgetIdsList]
    exact (deconstructTrace_perm c).append (deconstructTraceList_perm cs)
end

mutual
theorem subtree_trace_infix : ∀ (t u : WTree), u ∈ subtrees t →
    ∃ pre suf, deconstructTrace t = pre ++ deconstructTrace u ++ suf
  | .node i cs, u, hu => by
    simp only [subtrees] at hu
    rcases List.mem_cons.mp hu with rfl | hu2
    · exact ⟨[], [], by simp⟩
    · obtain ⟨pre, suf, h⟩ := subtreeList_trace_infix cs u hu2
      refine ⟨pre, suf ++ [i], ?_⟩
      simp only [deconstructTrace, h]
      simp [List.append_assoc]

theorem subtreeList_trace_infix : ∀ (cs : List WTree) (u : WTree),
    u ∈ subtreesList cs →
    ∃ pre suf, deconstructTraceList cs = pre ++ deconstructTrace u ++ suf
  | [], u, hu => by simp [subtreesList] at hu
  | c :: cs, u, hu => by
    simp only [subtreesList] at hu
    rcases List.mem_append.mp hu with h1 | h2
    · obtain ⟨pre, suf, h⟩ := subtree_trace_infix c u h1
      exact ⟨pre, suf ++ deconstructTraceList cs,
        by simp [deconstructTraceList, h, List.append_assoc]⟩
    · obtain ⟨pre, suf, h⟩ := subtreeList_trace_infix cs u h2
      exact ⟨deconstructTrace c ++ pre, suf,
        by simp [deconstructTraceList, h, List.append_assoc]⟩
end

theorem indexOf_lt_of_split (T xs ys : List Nat) (hT : T = xs ++ ys)
    (hnd : T.Nodup) (b w : Nat) (hb : b ∈ xs) (hw : w ∈ ys) :
    T.indexOf b < T.indexOf w := by
  subst hT
  have hdisj : xs.Disjoint ys := (List.nodup_append.mp hnd).2.2
  have hwxs : w ∉ xs := fun hmem => hdisj hmem hw
  rw [List.indexOf_append_of_mem hb, List.indexOf_append_of_not_mem hwxs]
  calc List.indexOf b xs < xs.length := List.indexOf_lt_length.mpr hb
    _ ≤ xs.length + List.indexOf w ys := Nat.le_add_right _ _

/-- C7: `deconstructWidget` removes the entire sub-widget subtree
depth-first: the hook sequence it produces visits every widget of the tree
exactly once, the root's own `onDeconstruct` fires last, and for every
subtree every descendant's hook fires strictly before the subtree root's
own hook. -/
theorem deconstructWidget_cascade (t : WTree) (hnd : (widgetIds t).Nodup) :
    (deconstructTrace t).Perm (widgetIds t) ∧
    (deconstructTrace t).getLast? = some t.wid ∧
    (∀ u ∈ subtrees t, ∀ b ∈ widgetIds u, b ≠ u.wid →
      (deconstructTrace t).indexOf b < (deconstructTrace t).indexOf u.wid) := by
  have hperm := deconstructTrace_perm t
  have hTnd : (deconstructTrace t).Nodup := hperm.nodup_iff.mpr hnd
  refine ⟨hperm, ?_, ?_⟩
  · cases t with
    | node i cs => simp [deconstructTrace, WTree.wid]
  · intro u hu b hb hbne
    obtain ⟨pre, suf, hT⟩ := subtree_trace_infix t u hu
    cases u with
    | node j csu =>
      have hbu : b ∈ deconstructTrace (WTree.node j csu) :=
        (deconstructTrace_perm _).mem_iff.mpr ((by simpa [widgetIds] using hb))
      have hbj : b ≠ j := by simpa [WTree.wid] using hbne
      simp only [deconstructTrace] at hbu hT
      have hbbody : b ∈ deconstructTraceList csu := by
        rcases List.mem_append.mp hbu with h | h
        · exact h
        · exact absurd (by simpa using h) hbj
      have hT2 : deconstructTrace t =
          (pre ++ deconstructTraceList csu) ++ ([j] ++ suf) := by
        rw [hT]; simp [List.append_assoc]
      have hbxs : b ∈ pre ++ deconstructTraceList csu :=
        List.mem_append.mpr (Or.inr hbbody)
      have hwys : (WTree.node j csu).wid ∈ [j] ++ suf := by simp [WTree.wid]
      simpa [WTree.wid] using
        indexOf_lt_of_split _ _ _ hT2 hTnd b (WTree.node j csu).wid hbxs hwys

/-- C7 witness: a root (id 0) with children 1 and 2, where 2 itself has
child 3; the ids are distinct, so the cascade visits everything once. -/
theorem deconstructWidget_cascade_witness :
    (widgetIds (WTree.node 0 [WTree.node 1 [], WTree.node 2 [WTree.node 3 []]])).Nodup ∧
    (deconstructTrace
        (WTree.node 0 [WTree.node 1 [], WTree.node 2 [WTree.node 3 []]])).Perm
      (widgetIds (WTree.node 0 [WTree.node 1 [], WTree.node 2 [WTree.node 3 []]])) :=
  ⟨by decide,
    (deconstructWidget_cascade
      (WTree.node 0 [WTree.node 1 [], WTree.node 2 [WTree.node 3 []]])
      (by decide)).1⟩

/-- C10 counterexample: on the tick where a primary press inside the
rectangle finds the widget unfocused, `WidgetInput.update` calls
`onFocusedFunction` twice (input.ts lines 227-229 and 273-275), not
exactly once. -/
theorem widgetInput_transition_double_fire_cex :
    widgetInputUpdate wUnfocused mClick =
      ({ wUnfocused with isFocused := true }, 2) ∧ (2 : Nat) ≠ 1 := by
  constructor
  · decide
  · decide

/-- C10 (amended): on the transition tick (primary press inside the
rectangle while unfocused) the widget becomes focused and the callback
fires twice — once from the transition branch and once from the
end-of-update focused branch; on every later tick while it stays focused
the callback fires exactly once; a press outside the rectangle unfocuses
it with no fire; and without a press an unfocused widget stays unfocused
with no fire. -/
theorem widgetInput_focus_fire_spec (w : InputSt) (m : MouseSt) :
    (w.isFocused = false → m.leftDown = true →
      pointToRect m.mouseX m.mouseY w.x w.y w.xSize w.ySize = true →
      widgetInputUpdate w m = ({ w with isFocused := true }, 2)) ∧
    (w.isFocused = true →
      (m.leftDown = false ∨
        pointToRect m.mouseX m.mouseY w.x w.y w.xSize w.ySize = true) →
      widgetInputUpdate w m = ({ w with isFocused := true }, 1)) ∧
    (m.leftDown = true →
      pointToRect m.mouseX m.mouseY w.x w.y w.xSize w.ySize = false →
      widgetInputUpdate w m = ({ w with isFocused := false }, 0)) ∧
    (w.isFocused = false → m.leftDown = false →
      widgetInputUpdate w m = (w, 0)) := by
  obtain ⟨wx, wy, wsx, wsy, wf⟩ := w
  refine ⟨?_, ?_, ?_, ?_⟩
  · intro hf hd hin
    subst hf
    simp [widgetInputUpdate, hd, hin]
  · intro hf h2
    subst hf
    rcases h2 with hd | hin
    · simp [widgetInputUpdate, hd]
    · cases hd : m.leftDown
      · simp [widgetInputUpdate, hd]
      · simp [widgetInputUpdate, hd, hin]
  · intro hd hout
    simp [widgetInputUpdate, hd, hout]
  · intro hf hd
    subst hf
    simp [widgetInputUpdate, hd]

/-- C10 witness: the amended behaviour at the concrete transition tick. -/
theorem widgetInput_focus_fire_spec_witness :
    wUnfocused.isFocused = false ∧
    widgetInputUpdate wUnfocused mClick =
      ({ wUnfocused with isFocused := true }, 2) :=
  ⟨rfl, (widgetInput_focus_fire_spec wUnfocused mClick).1 rfl rfl (by decide)⟩

theorem mem_split_of_get : ∀ (xs ys : List Ev) (i : Nat)
    (h : i < (xs ++ ys).length),
    (i < xs.length ∧ (xs ++ ys).get ⟨i, h⟩ ∈ xs) ∨
    (xs.length ≤ i ∧ (xs ++ ys).get ⟨i, h⟩ ∈ ys)
  | [], ys, i, h => Or.inr ⟨Nat.zero_le i, List.get_mem _ _ _⟩
  | x :: xs, ys, 0, h => Or.inl ⟨Nat.succ_pos _, List.mem_cons_self _ _⟩
  | x :: xs, ys, i + 1, h => by
    have h2 : i < (xs ++ ys).length := Nat.lt_of_succ_lt_succ (by simpa using h)
    rcases mem_split_of_get xs ys i h2 with ⟨ha, hm⟩ | ⟨ha, hm⟩
    · exact Or.inl ⟨Nat.succ_lt_succ ha, List.mem_cons_of_mem x hm⟩
    · exact Or.inr ⟨Nat.succ_le_succ ha, hm⟩

theorem unload_teardown (l : LevelL) : ∀ e ∈ onUnloadTrace l,
    Ev.isTeardown e = true ∧ Ev.isSetup e = false := by
  intro e he
  simp only [onUnloadTrace, List.mem_append, List.mem_map] at he
  rcases he with (⟨a, -, rfl⟩ | ⟨a, -, rfl⟩) | ⟨a, -, rfl⟩ <;>
    exact ⟨rfl, rfl⟩

theorem load_creates (l : LevelL) : ∀ e ∈ onLoadTrace l,
    ∃ b, e = Ev.createHook b := by
  intro e he
  simp only [onLoadTrace, List.mem_map] at he
  obtain ⟨a, -, rfl⟩ := he
  exact ⟨a, rfl⟩

/-- C5: while a level is loaded, `Game.loadLevel` emits the previous
level's full teardown (each of its actors' removal hooks in order, its
widget deconstructions, and any subclass `onUnload` side effect), then the
`this.level` assignment, then the new level's `onLoad` actor creations; in
the emitted segment every teardown event precedes every setup event, and
the `this.level` assignment precedes every creation of a new-level
actor. -/
theorem loadLevel_unload_before_load (g : GameL) (old newLevel : LevelL)
    (h : g.level = some old) :
    ((loadLevel g newLevel).trace =
      g.trace ++ (old.actors.map Ev.removeHook ++ old.widgets.map Ev.deconHook ++
        old.unloadEffects.map Ev.effect) ++ [Ev.levelSet newLevel.lid] ++
        newLevel.initActors.map Ev.createHook) ∧
    (∀ i j (hi : i < (loadLevelEmitted g newLevel).length)
        (hj : j < (loadLevelEmitted g newLevel).length),
      Ev.isTeardown ((loadLevelEmitted g newLevel).get ⟨i, hi⟩) = true →
      Ev.isSetup ((loadLevelEmitted g newLevel).get ⟨j, hj⟩) = true →
      i < j) ∧
    (∀ i j (hi : i < (loadLevelEmitted g newLevel).length)
        (hj : j < (loadLevelEmitted g newLevel).length) (b : ActorId),
      (loadLevelEmitted g newLevel).get ⟨i, hi⟩ = Ev.levelSet newLevel.lid →
      (loadLevelEmitted g newLevel).get ⟨j, hj⟩ = Ev.createHook b →
      i < j) := by
  have hE1 : loadLevelEmitted g newLevel =
      onUnloadTrace old ++
        ([Ev.levelSet newLevel.lid] ++ onLoadTrace newLevel) := by
    simp [loadLevelEmitted, h, List.append_assoc]
  have hE2 : loadLevelEmitted g newLevel =
      (onUnloadTrace old ++ [Ev.levelSet newLevel.lid]) ++
        onLoadTrace newLevel := by
    simp [loadLevelEmitted, h, List.append_assoc]
  refine ⟨?_, ?_, ?_⟩
  · simp [loadLevel, loadLevelEmitted, h, onUnloadTrace, onLoadTrace,
      List.append_assoc]
  · intro i j
    rw [hE1]
    intro hi hj hTd hSu
    rcases mem_split_of_get _ _ i hi with ⟨h1, -⟩ | ⟨-, h2⟩
    · rcases mem_split_of_get _ _ j hj with ⟨-, h4⟩ | ⟨h3, -⟩
      · have := (unload_teardown old _ h4).2
        rw [hSu] at this
        cases this
      · omega
    · rcases List.mem_append.mp h2 with h5 | h5
      · have h6 : (onUnloadTrace old ++
            ([Ev.levelSet newLevel.lid] ++ onLoadTrace newLevel)).get ⟨i, hi⟩ =
            Ev.levelSet newLevel.lid := by
          simpa using h5
        rw [h6] at hTd
        cases hTd
      · obtain ⟨b, hb⟩ := load_creates newLevel _ h5
        rw [hb] at hTd
        cases hTd
  · intro i j
    rw [hE2]
    intro hi hj b hSet hCr
    rcases mem_split_of_get _ _ i hi with ⟨h1, -⟩ | ⟨-, h2⟩
    · rcases mem_split_of_get _ _ j hj with ⟨-, h4⟩ | ⟨h3, -⟩
      · rcases List.mem_append.mp h4 with h5 | h5
        · have := (unload_teardown old _ h5).1
          rw [hCr] at this
          cases this
        · have h6 : Ev.createHook b = Ev.levelSet newLevel.lid := by
            rw [← hCr]; simpa using h5
          cases h6
      · have hlen : (onUnloadTrace old ++ [Ev.levelSet newLevel.lid]).length =
            (onUnloadTrace old).length + 1 := by simp
        omega
    · obtain ⟨b2, hb2⟩ := load_creates newLevel _ h2
      rw [hSet] at hb2
      cases hb2

/-- C5 witness: unloading a level with actors 1 and 2, widget 5 and side
effect 9, then installing level 2 which creates actor 3. -/
theorem loadLevel_unload_before_load_witness :
    gLoadW.level = some oldLevelW ∧
    (loadLevel gLoadW newLevelW).trace =
      gLoadW.trace ++ (oldLevelW.actors.map Ev.removeHook ++
        oldLevelW.widgets.map Ev.deconHook ++
        oldLevelW.unloadEffects.map Ev.effect) ++
      [Ev.levelSet newLevelW.lid] ++ newLevelW.initActors.map Ev.createHook :=
  ⟨rfl, (loadLevel_unload_before_load gLoadW oldLevelW newLevelW rfl).1⟩


/-- C6: removal of an actor from a container is a guarded no-op: a
non-member removal returns false and changes nothing (no hook, no list
change); a member removal fires the actor's removal hook once, excises
exactly that actor from that list, leaves everything else untouched, and
returns true. -/
theorem removeActor_flag_spec (g : GameA) (lid : LevelId) (a : ActorId)
    (l₀ : LevelA) (hfind : g.levels.find? (fun l => l.lid == lid) = some l₀) :
    (a ∉ l₀.actors → levelRemoveActor g lid a = (false, g)) ∧
    (a ∈ l₀.actors →
      (levelRemoveActor g lid a).1 = true ∧
      (levelRemoveActor g lid a).2.trace = g.trace ++ [Ev.removeHook a] ∧
      (levelRemoveActor g lid a).2.persistantActors = g.persistantActors ∧
      (levelRemoveActor g lid a).2.refs = g.refs ∧
      (∃ l₁ ∈ (levelRemoveActor g lid a).2.levels, l₁.lid = lid ∧
        a ∉ l₁.actors ∧ ∀ x, x ≠ a → (x ∈ l₁.actors ↔ x ∈ l₀.actors)) ∧
      (∀ l ∈ g.levels, l.lid ≠ lid →
        l ∈ (levelRemoveActor g lid a).2.levels)) ∧
    (a ∉ g.persistantActors → removePersistantActor g a = (false, g)) ∧
    (a ∈ g.persistantActors →
      (removePersistantActor g a).1 = true ∧
      (removePersistantActor g a).2.trace = g.trace ++ [Ev.removeHook a] ∧
      (removePersistantActor g a).2.levels = g.levels ∧
      (removePersistantActor g a).2.refs = g.refs ∧
      a ∉ (removePersistantActor g a).2.persistantActors ∧
      ∀ x, x ≠ a →
        (x ∈ (removePersistantActor g a).2.persistantActors ↔
          x ∈ g.persistantActors)) := by
  have hl₀mem := List.mem_of_find?_eq_some hfind
  have hl₀lid : l₀.lid = lid := by simpa using List.find?_some hfind
  refine ⟨?_, ?_, ?_, ?_⟩
  · intro hna
    have hc : l₀.actors.contains a = false := by
      rw [Bool.eq_false_iff]
      intro hcon
      exact hna (by simpa using hcon)
    simp [levelRemoveActor, hfind, hc, hna]
  · intro ha
    have hres : levelRemoveActor g lid a =
        (true, { g with
          levels := g.levels.map (fun l2 => if l2.lid = lid then
            { l2 with actors := l2.actors.filter (fun x => x != a) } else l2),
          trace := g.trace ++ [Ev.removeHook a] }) := by
      simp [levelRemoveActor, hfind, ha]
    rw [hres]
    refine ⟨rfl, rfl, rfl, rfl, ?_, ?_⟩
    · refine ⟨{ l₀ with actors := l₀.actors.filter (fun x => x != a) },
        ?_, hl₀lid, ?_, ?_⟩
      · exact List.mem_map.mpr ⟨l₀, hl₀mem, by rw [if_pos hl₀lid]⟩
      · simp [List.mem_filter]
      · intro x hx
        simp [List.mem_filter, hx]
    · intro l hl hne
      exact List.mem_map.mpr ⟨l, hl, by rw [if_neg hne]⟩
  · intro hna
    have hc : g.persistantActors.contains a = false := by
      rw [Bool.eq_false_iff]
      intro hcon
      exact hna (by simpa using hcon)
    simp [removePersistantActor, hc, hna]
  · intro ha
    have hres : removePersistantActor g a =
        (true, { g with
          persistantActors := g.persistantActors.filter (fun x => x != a),
          trace := g.trace ++ [Ev.removeHook a] }) := by
      simp [removePersistantActor, ha]
    rw [hres]
    refine ⟨rfl, rfl, rfl, rfl, ?_, ?_⟩
    · simp [List.mem_filter]
    · intro x hx
      simp [List.mem_filter, hx]

/-- C6 witness: in `gRegW2`, removing the non-member 9 from level 1 is a
no-op returning false. -/
theorem removeActor_flag_spec_witness :
    gRegW2.levels.find? (fun l => l.lid == 1) =
      some { lid := 1, actors := [4] } ∧
    (9 : ActorId) ∉ ({ lid := 1, actors := [4] } : LevelA).actors ∧
    levelRemoveActor gRegW2 1 9 = (false, gRegW2) :=
  ⟨rfl, by decide,
    (removeActor_flag_spec gRegW2 1 9 { lid := 1, actors := [4] } rfl).1
      (by decide)⟩

theorem count_allMembers (g : GameA) (a : ActorId) :
    (allMembers g).count a = persistCount g a + levelCount g a := by
  simp [allMembers, persistCount, levelCount, List.count_append]

theorem mem_allMembers_iff (g : GameA) (a : ActorId) :
    a ∈ allMembers g ↔ 0 < persistCount g a + levelCount g a := by
  rw [← count_allMembers, List.count_pos_iff]

theorem not_mem_counts (g : GameA) (a : ActorId) (h : a ∉ allMembers g) :
    persistCount g a = 0 ∧ levelCount g a = 0 := by
  have h1 := count_allMembers g a
  have h2 := List.count_eq_zero_of_not_mem h
  omega

theorem map_if_id (L : List LevelA) (lid : LevelId) (f : LevelA → LevelA)
    (h : ∀ l ∈ L, l.lid ≠ lid) :
    L.map (fun l => if l.lid = lid then f l else l) = L := by
  induction L with
  | nil => rfl
  | cons x xs ih =>
    rw [List.map_cons, if_neg (h x (List.mem_cons_self x xs)),
      ih (fun l hl => h l (List.mem_cons_of_mem x hl))]

theorem lids_of_update (ls : List LevelA) (lid : LevelId) (f : LevelA → LevelA)
    (hf : ∀ l, (f l).lid = l.lid) :
    (ls.map (fun l => if l.lid = lid then f l else l)).map (fun l => l.lid) =
      ls.map (fun l => l.lid) := by
  induction ls with
  | nil => rfl
  | cons x xs ih =>
    by_cases hx : x.lid = lid <;> simp [hx, hf, ih]

theorem levels_split (ls : List LevelA) (lid : LevelId) (l₀ : LevelA)
    (hnd : (ls.map (fun l => l.lid)).Nodup) (hmem : l₀ ∈ ls)
    (hlid : l₀.lid = lid) :
    ∃ L1 L2, ls = L1 ++ l₀ :: L2 ∧
      (∀ l ∈ L1, l.lid ≠ lid) ∧ (∀ l ∈ L2, l.lid ≠ lid) := by
  obtain ⟨L1, L2, rfl⟩ := List.append_of_mem hmem
  rw [List.map_append, List.map_cons] at hnd
  obtain ⟨hnd1, hnd2, hdisj⟩ := List.nodup_append.mp hnd
  obtain ⟨hnotin, hnd3⟩ := List.nodup_cons.mp hnd2
  refine ⟨L1, L2, rfl, ?_, ?_⟩
  · intro l hl heq
    have hll : l.lid = l₀.lid := by rw [heq, hlid]
    exact hdisj (List.mem_map_of_mem _ hl) (hll ▸ List.mem_cons_self _ _)
  · intro l hl heq
    have hll : l₀.lid = l.lid := by rw [hlid, heq]
    exact hnotin (by rw [hll]; exact List.mem_map_of_mem _ hl)

theorem map_update_split (L1 L2 : List LevelA) (l₀ : LevelA) (lid : LevelId)
    (hlid : l₀.lid = lid) (h1 : ∀ l ∈ L1, l.lid ≠ lid)
    (h2 : ∀ l ∈ L2, l.lid ≠ lid) (f : LevelA → LevelA) :
    (L1 ++ l₀ :: L2).map (fun l => if l.lid = lid then f l else l) =
      L1 ++ f l₀ :: L2 := by
  rw [List.map_append, List.map_cons, if_pos hlid, map_if_id L1 lid f h1,
    map_if_id L2 lid f h2]

theorem levelCount_split (ls : List LevelA) (L1 L2 : List LevelA) (l₀ : LevelA)
    (hsplit : ls = L1 ++ l₀ :: L2) (x : ActorId) :
    ((ls.map (fun l => l.actors)).flatten).count x =
      ((L1.map (fun l => l.actors)).flatten).count x + l₀.actors.count x +
      ((L2.map (fun l => l.actors)).flatten).count x := by
  subst hsplit
  simp [List.map_append, List.flatten_append, List.count_append]
  omega

theorem count_singleton_ne (b a : ActorId) (h : b ≠ a) :
    ([a] : List ActorId).count b = 0 :=
  List.count_eq_zero_of_not_mem (by simp [h])

theorem goodActor_transfer (g g' : GameA) (b : ActorId)
    (hp : persistCount g' b = persistCount g b)
    (hlc : levelCount g' b = levelCount g b)
    (hr : g'.refs b = g.refs b)
    (hlev : g'.levels = g.levels)
    (h : goodActor g b) : goodActor g' b := by
  unfold goodActor at h ⊢
  rw [hp, hlc, hr, hlev]
  exact h

theorem goodActor_transfer_update (g g' : GameA) (b : ActorId)
    (hp : persistCount g' b = persistCount g b)
    (hlc : levelCount g' b = levelCount g b)
    (hr : g'.refs b = g.refs b)
    (hlev : ∀ l ∈ g.levels, b ∈ l.actors →
      ∃ l2 ∈ g'.levels, l2.lid = l.lid ∧ b ∈ l2.actors)
    (h : goodActor g b) : goodActor g' b := by
  unfold goodActor at h ⊢
  rw [hp, hlc, hr]
  rcases h with h | ⟨h1, h2, h3, l, hl, href, hbl⟩
  · exact Or.inl h
  · obtain ⟨l2, hl2, hlid2, hbl2⟩ := hlev l hl hbl
    exact Or.inr ⟨h1, h2, h3, l2, hl2, by rw [href, hlid2], hbl2⟩

theorem count_filter_ne (l : List ActorId) (a b : ActorId) (h : b ≠ a) :
    (l.filter (fun y => y != a)).count b = l.count b := by
  induction l with
  | nil => rfl
  | cons x xs ih =>
    by_cases hx : x = a
    · rw [List.filter_cons_of_neg (by simp [hx]), ih,
        List.count_cons_of_ne (by rw [hx]; exact h)]
    · rw [List.filter_cons_of_pos (by simpa using hx), List.count_cons,
        List.count_cons, ih]

theorem registryInv_addPersistantActor (g : GameA) (a : ActorId)
    (hinv : registryInv g) (hfresh : a ∉ allMembers g)
    (href : (g.refs a).level = none) :
    registryInv (addPersistantActor g a) := by
  obtain ⟨hnd, hgood⟩ := hinv
  obtain ⟨hp0, hl0⟩ := not_mem_counts g a hfresh
  refine ⟨hnd, ?_⟩
  intro b hb
  have hpc : ∀ x : ActorId, persistCount (addPersistantActor g a) x =
      persistCount g x + ([a] : List ActorId).count x := by
    intro x
    simp [persistCount, addPersistantActor, List.count_append]
  have hlc : ∀ x : ActorId, levelCount (addPersistantActor g a) x =
      levelCount g x := fun _ => rfl
  by_cases hba : b = a
  · subst hba
    left
    refine ⟨?_, ?_, ?_⟩
    · rw [hpc, hp0, List.count_singleton_self]
    · rw [hlc]
      exact hl0
    · show setRefs g.refs b (onCreateRefs true none (g.refs b)) b = _
      simp [setRefs, onCreateRefs, href]
  · have hbg : b ∈ allMembers g := by
      rw [mem_allMembers_iff]
      rw [mem_allMembers_iff, hpc, hlc, count_singleton_ne b a hba] at hb
      omega
    refine goodActor_transfer g _ b ?_ (hlc b) ?_ rfl (hgood b hbg)
    · rw [hpc, count_singleton_ne b a hba]
      omega
    · show setRefs g.refs a (onCreateRefs true none (g.refs a)) b = g.refs b
      simp [setRefs, hba]

theorem registryInv_removePersistantActor (g : GameA) (a : ActorId)
    (hinv : registryInv g) :
    registryInv (removePersistantActor g a).2 := by
  obtain ⟨hnd, hgood⟩ := hinv
  by_cases ha : a ∈ g.persistantActors
  · have hres : (removePersistantActor g a).2 = { g with
        persistantActors := g.persistantActors.filter (fun x => x != a),
        trace := g.trace ++ [Ev.removeHook a] } := by
      simp [removePersistantActor, ha]
    rw [hres]
    refine ⟨hnd, ?_⟩
    intro b hb
    have hpa0 : (g.persistantActors.filter (fun y => y != a)).count a = 0 := by
      simp [List.count_eq_zero, List.mem_filter]
    have hmema : a ∈ allMembers g := by
      rw [mem_allMembers_iff]
      have h5 : 0 < persistCount g a := List.count_pos_iff.mpr ha
      omega
    have hba : b ≠ a := by
      intro hbeq
      rw [hbeq, mem_allMembers_iff] at hb
      have h1 : persistCount { g with
          persistantActors := g.persistantActors.filter (fun x => x != a),
          trace := g.trace ++ [Ev.removeHook a] } a =
          (g.persistantActors.filter (fun y => y != a)).count a := rfl
      have h2 : levelCount { g with
          persistantActors := g.persistantActors.filter (fun x => x != a),
          trace := g.trace ++ [Ev.removeHook a] } a = levelCount g a := rfl
      have h5 : 0 < persistCount g a := List.count_pos_iff.mpr ha
      rcases hgood a hmema with ⟨-, hq2, -⟩ | ⟨hq1, -, -, -⟩
      · omega
      · omega
    have hpcb : persistCount { g with
        persistantActors := g.persistantActors.filter (fun x => x != a),
        trace := g.trace ++ [Ev.removeHook a] } b = persistCount g b := by
      show (g.persistantActors.filter (fun y => y != a)).count b = _
      exact count_filter_ne g.persistantActors a b hba
    have hbg : b ∈ allMembers g := by
      rw [mem_allMembers_iff]
      rw [mem_allMembers_iff, hpcb] at hb
      exact hb
    exact goodActor_transfer g _ b hpcb rfl rfl rfl (hgood b hbg)
  · have hc : g.persistantActors.contains a = false := by
      rw [Bool.eq_false_iff]
      intro hcon
      exact ha (by simpa using hcon)
    have hres : (removePersistantActor g a).2 = g := by
      simp [removePersistantActor, hc, ha]
    rw [hres]
    exact ⟨hnd, hgood⟩

theorem registryInv_levelAddActor (g : GameA) (lid : LevelId) (a : ActorId)
    (hinv : registryInv g) (hfresh : a ∉ allMembers g) :
    registryInv (levelAddActor g lid a) ∧
    ((∃ l₀ ∈ g.levels, l₀.lid = lid) → goodActor (levelAddActor g lid a) a) := by
  obtain ⟨hnd, hgood⟩ := hinv
  obtain ⟨hp0, hl0⟩ := not_mem_counts g a hfresh
  have hnd2 : ((levelAddActor g lid a).levels.map (fun l => l.lid)).Nodup := by
    show ((g.levels.map (fun l => if l.lid = lid then
      { l with actors := l.actors ++ [a] } else l)).map (fun l => l.lid)).Nodup
    rw [lids_of_update g.levels lid
      (fun l => { l with actors := l.actors ++ [a] }) (fun _ => rfl)]
    exact hnd
  have hpc : ∀ x, persistCount (levelAddActor g lid a) x = persistCount g x :=
    fun _ => rfl
  have hrefs : ∀ x, x ≠ a → (levelAddActor g lid a).refs x = g.refs x := by
    intro x hx
    show setRefs g.refs a (onCreateRefs false (some lid) (g.refs a)) x = _
    simp [setRefs, hx]
  have hrefa : (levelAddActor g lid a).refs a =
      { persistantActor := false, level := some lid } := by
    show setRefs g.refs a (onCreateRefs false (some lid) (g.refs a)) a = _
    simp [setRefs, onCreateRefs]
  by_cases hex : ∃ l₀ ∈ g.levels, l₀.lid = lid
  · obtain ⟨l₀, hl₀, hlid₀⟩ := hex
    obtain ⟨L1, L2, hsplit, h1, h2⟩ := levels_split g.levels lid l₀ hnd hl₀ hlid₀
    have hlev : (levelAddActor g lid a).levels =
        L1 ++ { l₀ with actors := l₀.actors ++ [a] } :: L2 := by
      show g.levels.map _ = _
      rw [hsplit]
      exact map_update_split L1 L2 l₀ lid hlid₀ h1 h2 _
    have hlca : levelCount (levelAddActor g lid a) a = levelCount g a + 1 := by
      have e1 := levelCount_split _ L1 L2
        { l₀ with actors := l₀.actors ++ [a] } hlev a
      have e2 := levelCount_split _ L1 L2 l₀ hsplit a
      have hmid : ({ l₀ with actors := l₀.actors ++ [a] } : LevelA).actors.count a
          = l₀.actors.count a + 1 := by
        simp [List.count_append]
      unfold levelCount
      omega
    have hlcb : ∀ x, x ≠ a →
        levelCount (levelAddActor g lid a) x = levelCount g x := by
      intro x hx
      have e1 := levelCount_split _ L1 L2
        { l₀ with actors := l₀.actors ++ [a] } hlev x
      have e2 := levelCount_split _ L1 L2 l₀ hsplit x
      have hmid : ({ l₀ with actors := l₀.actors ++ [a] } : LevelA).actors.count x
          = l₀.actors.count x := by
        simp [List.count_append, count_singleton_ne x a hx]
      unfold levelCount
      omega
    have hgooda : goodActor (levelAddActor g lid a) a := by
      right
      refine ⟨by rw [hpc]; exact hp0, by rw [hlca, hl0], by rw [hrefa], ?_⟩
      refine ⟨{ l₀ with actors := l₀.actors ++ [a] }, ?_, ?_, ?_⟩
      · rw [hlev]
        exact List.mem_append.mpr (Or.inr (List.mem_cons_self _ _))
      · rw [hrefa]
        show some lid = some ({ l₀ with actors := l₀.actors ++ [a] } : LevelA).lid
        rw [show ({ l₀ with actors := l₀.actors ++ [a] } : LevelA).lid = l₀.lid
          from rfl, hlid₀]
      · simp
    refine ⟨⟨hnd2, ?_⟩, fun _ => hgooda⟩
    intro b hb
    by_cases hba : b = a
    · subst hba
      exact hgooda
    · have hbg : b ∈ allMembers g := by
        rw [mem_allMembers_iff]
        rw [mem_allMembers_iff, hpc, hlcb b hba] at hb
        exact hb
      refine goodActor_transfer_update g _ b (hpc b) (hlcb b hba)
        (hrefs b hba) ?_ (hgood b hbg)
      intro l hl hbl
      refine ⟨if l.lid = lid then { l with actors := l.actors ++ [a] } else l,
        ?_, ?_, ?_⟩
      · exact List.mem_map_of_mem _ hl
      · by_cases h : l.lid = lid <;> simp [h]
      · by_cases h : l.lid = lid <;> simp [h, hbl]
  · have hall : ∀ l ∈ g.levels, l.lid ≠ lid := fun l hl heq => hex ⟨l, hl, heq⟩
    have hlev : (levelAddActor g lid a).levels = g.levels := by
      show g.levels.map _ = _
      exact map_if_id g.levels lid _ hall
    have hlcall : ∀ x, levelCount (levelAddActor g lid a) x = levelCount g x := by
      intro x
      unfold levelCount
      rw [hlev]
    refine ⟨⟨hnd2, ?_⟩, fun hex2 => absurd hex2 hex⟩
    intro b hb
    have hba : b ≠ a := by
      intro hbeq
      rw [hbeq] at hb
      apply hfresh
      rw [mem_allMembers_iff]
      rw [mem_allMembers_iff, hpc, hlcall] at hb
      exact hb
    have hbg : b ∈ allMembers g := by
      rw [mem_allMembers_iff]
      rw [mem_allMembers_iff, hpc, hlcall] at hb
      exact hb
    exact goodActor_transfer g _ b (hpc b) (hlcall b) (hrefs b hba) hlev
      (hgood b hbg)

theorem registryInv_levelRemoveActor (g : GameA) (lid : LevelId) (a : ActorId)
    (hinv : registryInv g) :
    registryInv (levelRemoveActor g lid a).2 := by
  obtain ⟨hnd, hgood⟩ := hinv
  cases hfind : g.levels.find? (fun l => l.lid == lid) with
  | none =>
    have hres : (levelRemoveActor g lid a).2 = g := by
      simp [levelRemoveActor, hfind]
    rw [hres]
    exact ⟨hnd, hgood⟩
  | some l₀ =>
    by_cases ha : a ∈ l₀.actors
    case neg =>
      have hc : l₀.actors.contains a = false := by
        rw [Bool.eq_false_iff]
        intro hcon
        exact ha (by simpa using hcon)
      have hres : (levelRemoveActor g lid a).2 = g := by
        simp [levelRemoveActor, hfind, hc, ha]
      rw [hres]
      exact ⟨hnd, hgood⟩
    case pos =>
      have hl₀mem := List.mem_of_find?_eq_some hfind
      have hlid₀ : l₀.lid = lid := by simpa using List.find?_some hfind
      have hres : (levelRemoveActor g lid a).2 = { g with
          levels := g.levels.map (fun l2 => if l2.lid = lid then
            { l2 with actors := l2.actors.filter (fun x => x != a) } else l2),
          trace := g.trace ++ [Ev.removeHook a] } := by
        simp [levelRemoveActor, hfind, ha]
      obtain ⟨L1, L2, hsplit, h1, h2⟩ :=
        levels_split g.levels lid l₀ hnd hl₀mem hlid₀
      have hlev : (levelRemoveActor g lid a).2.levels =
          L1 ++ { l₀ with actors := l₀.actors.filter (fun x => x != a) } :: L2 := by
        rw [hres]
        show g.levels.map _ = _
        rw [hsplit]
        exact map_update_split L1 L2 l₀ lid hlid₀ h1 h2 _
      have hnd2 : ((levelRemoveActor g lid a).2.levels.map
          (fun l => l.lid)).Nodup := by
        rw [hres]
        show ((g.levels.map (fun l2 => if l2.lid = lid then
          { l2 with actors := l2.actors.filter (fun x => x != a) } else l2)).map
            (fun l => l.lid)).Nodup
        rw [lids_of_update g.levels lid
          (fun l2 => { l2 with actors := l2.actors.filter (fun x => x != a) })
          (fun _ => rfl)]
        exact hnd
      have hpc : ∀ x, persistCount (levelRemoveActor g lid a).2 x =
          persistCount g x := by
        intro x
        rw [hres]
        rfl
      have hrefs : (levelRemoveActor g lid a).2.refs = g.refs := by rw [hres]
      have hlcb : ∀ x, x ≠ a →
          levelCount (levelRemoveActor g lid a).2 x = levelCount g x := by
        intro x hx
        have e1 := levelCount_split _ L1 L2
          { l₀ with actors := l₀.actors.filter (fun y => y != a) } hlev x
        have e2 := levelCount_split _ L1 L2 l₀ hsplit x
        have hmid : ({ l₀ with
            actors := l₀.actors.filter (fun y => y != a) } : LevelA).actors.count x
            = l₀.actors.count x := count_filter_ne l₀.actors a x hx
        unfold levelCount
        omega
      have hlca : levelCount (levelRemoveActor g lid a).2 a =
          levelCount g a - l₀.actors.count a := by
        have e1 := levelCount_split _ L1 L2
          { l₀ with actors := l₀.actors.filter (fun y => y != a) } hlev a
        have e2 := levelCount_split _ L1 L2 l₀ hsplit a
        have hmid : ({ l₀ with
            actors := l₀.actors.filter (fun y => y != a) } : LevelA).actors.count a
            = 0 := by
          simp [List.count_eq_zero, List.mem_filter]
        unfold levelCount
        omega
      have e2g : levelCount g a =
          ((L1.map (fun l => l.actors)).flatten).count a + l₀.actors.count a +
          ((L2.map (fun l => l.actors)).flatten).count a := by
        have e2 := levelCount_split _ L1 L2 l₀ hsplit a
        unfold levelCount
        omega
      have h5 : 0 < l₀.actors.count a := List.count_pos_iff.mpr ha
      have hmema : a ∈ allMembers g := by
        rw [mem_allMembers_iff]
        omega
      refine ⟨hnd2, ?_⟩
      intro b hb
      have hba : b ≠ a := by
        intro hbeq
        rw [hbeq, mem_allMembers_iff, hpc] at hb
        rcases hgood a hmema with ⟨-, hq2, -⟩ | ⟨hq1, hq2, -, -⟩
        · omega
        · omega
      have hbg : b ∈ allMembers g := by
        rw [mem_allMembers_iff]
        rw [mem_allMembers_iff, hpc, hlcb b hba] at hb
        exact hb
      refine goodActor_transfer_update g _ b (hpc b) (hlcb b hba)
        (by rw [hrefs]) ?_ (hgood b hbg)
      intro l hl hbl
      refine ⟨if l.lid = lid then
        { l with actors := l.actors.filter (fun x => x != a) } else l,
        ?_, ?_, ?_⟩
      · rw [hres]
        exact List.mem_map_of_mem _ hl
      · by_cases h : l.lid = lid <;> simp [h]
      · by_cases h : l.lid = lid <;> simp [h, List.mem_filter, hbl, hba]

theorem registryInv_actorRemove (g : GameA) (a : ActorId)
    (hinv : registryInv g) :
    registryInv (actorRemove g a) := by
  unfold actorRemove
  split
  · exact registryInv_removePersistantActor g a hinv
  · exact registryInv_removePersistantActor g a hinv
  · exact registryInv_levelRemoveActor g _ a hinv

/-- C3: the registry invariant — every registered actor is in exactly one
collection (the persistant list, or one level's list) with matching
`persistantActor` flag and `level` back-reference, never both and never
neither — is preserved by every registry operation: `Level.addActor` and
`Game.addPersistantActor` (for an actor not already owned, as the
programmer contract requires), `Level.removeActor`,
`Game.removePersistantActor` and `Actor.remove` (unconditionally); and
right after the creation hook of an added actor has run, that actor
satisfies the correspondence. -/
theorem registry_ops_preserve_inv (g : GameA) (a : ActorId) (lid : LevelId)
    (hinv : registryInv g) :
    (a ∉ allMembers g → registryInv (levelAddActor g lid a)) ∧
    (a ∉ allMembers g → (∃ l₀ ∈ g.levels, l₀.lid = lid) →
      goodActor (levelAddActor g lid a) a) ∧
    (a ∉ allMembers g → (g.refs a).level = none →
      registryInv (addPersistantActor g a)) ∧
    (a ∉ allMembers g → (g.refs a).level = none →
      goodActor (addPersistantActor g a) a) ∧
    registryInv (levelRemoveActor g lid a).2 ∧
    registryInv (removePersistantActor g a).2 ∧
    registryInv (actorRemove g a) := by
  refine ⟨fun hf => (registryInv_levelAddActor g lid a hinv hf).1,
    fun hf hex => (registryInv_levelAddActor g lid a hinv hf).2 hex,
    fun hf hr => registryInv_addPersistantActor g a hinv hf hr,
    fun hf hr => ?_,
    registryInv_levelRemoveActor g lid a hinv,
    registryInv_removePersistantActor g a hinv,
    registryInv_actorRemove g a hinv⟩
  have hinv2 := registryInv_addPersistantActor g a hinv hf hr
  refine hinv2.2 a ?_
  rw [mem_allMembers_iff]
  have hpc : persistCount (addPersistantActor g a) a =
      persistCount g a + 1 := by
    simp [persistCount, addPersistantActor, List.count_append]
  omega

/-- C3 witness: adding the fresh actor 0 to the empty level 1 of `gRegW`
preserves the registry invariant. -/
theorem registry_ops_preserve_inv_witness :
    registryInv gRegW ∧ (0 : ActorId) ∉ allMembers gRegW ∧
    registryInv (levelAddActor gRegW 1 0) :=
  ⟨by decide, by decide,
    (registry_ops_preserve_inv gRegW 0 1 (by decide)).1 (by decide)⟩
